import Mathlib

/-!
Verification of the calendar / reminder core of a screen-scraping
in-game timer application.  Every definition below is a shallow
embedding of the corresponding Rust item in `src/main.rs`; machine
integer (`u16`) operations are modelled on `Nat` with explicit
reduction modulo `2^16` (the wrapping semantics of a release build).
-/

/-- `struct Date { year: u16, month: u8, day: u8 }` (line 31). -/
structure Date where
  year : Nat
  month : Nat
  day : Nat
deriving DecidableEq, Repr

/-- `impl Default for Date` (line 37): the far-future sentinel. -/
def Date.defaultDate : Date := ⟨2200, 1, 1⟩

/-- `Date::days_since_jesus` (line 63):
`year as u32 * 360 + month as u32 * 30 + day as u32`.  For `u16`/`u8`
fields the sum is at most `65535*360 + 255*30 + 255 < 2^32`, so the
`u32` arithmetic never wraps and is modelled as plain `Nat`. -/
def Date.days_since_jesus (d : Date) : Nat :=
  d.year * 360 + d.month * 30 + d.day

/-- `Ord::cmp` on unsigned machine integers, as `Nat`. -/
def natCmp (x y : Nat) : Ordering :=
  if x < y then .lt else if x = y then .eq else .gt

/-- `impl Ord for Date` (line 50): compare the `days_since_jesus`
linearizations. -/
def Date.cmp (a b : Date) : Ordering :=
  natCmp a.days_since_jesus b.days_since_jesus

/-- `Ord::le` derived from `Date::cmp` (used at line 256):
true unless the comparison is `Greater`. -/
def Date.le (a b : Date) : Bool :=
  match a.cmp b with
  | .gt => false
  | _ => true

/-- `Ord::lt` derived from `Date::cmp`. -/
def Date.lt (a b : Date) : Bool :=
  match a.cmp b with
  | .lt => true
  | _ => false

/-- The modulus of `u16` arithmetic. -/
def u16Mod : Nat := 65536

/-- `Date::with_days_added(days: u16)` (lines 88–106).  Each `u16`
operation is reduced mod `2^16`; the two subtractions of `1` are the
wrapping subtractions of the source, written as addition of
`u16Mod - 1`. -/
def Date.with_days_added (d : Date) (days : Nat) : Date :=
  let day1 := (d.day + days) % u16Mod
  let dayM := (day1 + (u16Mod - 1)) % u16Mod
  let month_added := dayM / 30
  let day2 := dayM % 30 + 1
  let month1 := ((month_added + d.month) % u16Mod + (u16Mod - 1)) % u16Mod
  let year_added := month1 / 12
  let month2 := month1 % 12 + 1
  let year := (d.year + year_added) % u16Mod
  ⟨year, month2, day2⟩

/-- The specification's linearization `year*360 + month*30 + day` (§3),
written from the spec's words, to be compared with the code's order. -/
def linearization (d : Date) : Nat :=
  d.year * 360 + d.month * 30 + d.day

/-- A Calendar Value within the parser's accepted bounds (§3). -/
def Date.valid (d : Date) : Prop :=
  2199 < d.year ∧ d.year < 3000 ∧ 1 ≤ d.month ∧ d.month ≤ 12 ∧
    1 ≤ d.day ∧ d.day ≤ 30

instance (d : Date) : Decidable d.valid := by
  unfold Date.valid; infer_instance

/-! ### The text-to-date parser -/

/-- Base-10 value of a digit string. -/
def digitsVal (l : List Char) : Nat :=
  l.foldl (fun a c => a * 10 + (c.toNat - 48)) 0

/-- `str::parse::<u16>` as applied to a capture group: on all-ASCII-digit
non-empty strings (the only ones the matcher hands over) it succeeds
exactly when the value fits in `u16`. -/
def parseU16 (l : List Char) : Option Nat :=
  if l ≠ [] ∧ l.all Char.isDigit ∧ digitsVal l ≤ 65535 then
    some (digitsVal l)
  else none

/-- `str::parse::<u8>` as applied to a capture group. -/
def parseU8 (l : List Char) : Option Nat :=
  if l ≠ [] ∧ l.all Char.isDigit ∧ digitsVal l ≤ 255 then
    some (digitsVal l)
  else none

/-- The matcher regex of line 125, over ASCII text (the OCR stage is
configured with the whitelist alphabet 0123456789. so this is the
reachable alphabet; on ASCII text the regex class coincides with
`Char.isDigit`).  The pattern is anchored at both ends, each digit class
consumes one digit, and the bare dot metacharacter consumes ANY single
character except a newline.  Returns the three capture groups. -/
def dateMatch : List Char → Option (List Char × List Char × List Char)
  | [a, b, c, d, s1, e, f, s2, g, h] =>
    if ([a, b, c, d, e, f, g, h].all Char.isDigit) ∧ s1 ≠ '\n' ∧ s2 ≠ '\n' then
      some ([a, b, c, d], [e, f], [g, h])
    else none
  | _ => none

/-- `parse_dt` (lines 184–198): parse the three capture groups, then the
bounds check `y < 3000 && y > 2199 && m < 13 && d < 31`. -/
def parse_dt (g1 g2 g3 : List Char) : Option Date := do
  let y ← parseU16 g1
  let m ← parseU8 g2
  let d ← parseU8 g3
  if y < 3000 ∧ y > 2199 ∧ m < 13 ∧ d < 31 then
    some ⟨y, m, d⟩
  else
    none

/-- `recognize_date` from the OCR text onward (lines 180–181): regex
capture, with a failed match propagated as `none` (the NoMatch case),
then `parse_dt`. -/
def recognize_date (s : List Char) : Option Date := do
  let caps ← dateMatch s
  parse_dt caps.1 caps.2.1 caps.2.2

/-! ### Stamped dates and the reminder store -/

/-- `struct StampedDate { time: Duration, date: Date }` (line 57).  The
`Duration` tiebreaker is modelled as total nanoseconds: `Duration` is a
pair of `u64` seconds and sub-second nanoseconds below `10^9`, whose
lexicographic order and equality coincide with those of the total. -/
structure StampedDate where
  time : Nat
  date : Date
deriving DecidableEq, Repr

/-- `Ordering::then` shape of the match in `Ord for StampedDate`. -/
def orderingThen : Ordering → Ordering → Ordering
  | .eq, b => b
  | o, _ => o

/-- `impl Ord for StampedDate` (lines 74–86): in-game date first,
wall-clock stamp as tiebreaker. -/
def StampedDate.cmp (a b : StampedDate) : Ordering :=
  orderingThen (a.date.cmp b.date) (natCmp a.time b.time)

/-- One `BTreeMap` entry: key and `(String, bool)` value. -/
abbrev Entry := StampedDate × String × Bool

/-- `BTreeMap::insert` on the canonical sorted-list representation of
`Reminders` (line 202): place the new key at its ordered position; a
comparator hit replaces the value but keeps the stored key. -/
def btreeInsert (k : StampedDate) (v : String × Bool) : List Entry → List Entry
  | [] => [(k, v)]
  | e :: t =>
    match k.cmp e.1 with
    | .lt => (k, v) :: e :: t
    | .eq => (e.1, v) :: t
    | .gt => e :: btreeInsert k v t

/-- `Deserialize for Reminders` (lines 211–216): collect the serialized
vector into the ordered map, front to back. -/
def collectReminders (l : List Entry) : List Entry :=
  l.foldl (fun m e => btreeInsert e.1 e.2 m) []

/-- `Serialize for Reminders` (lines 204–209): the vector of entries in
iteration order, which on the canonical sorted representation is the
list itself. -/
def serializeReminders (s : List Entry) : List Entry := s

/-- The pair written by `MyApp::dump` (line 311). -/
def dumpPair (d : Date) (s : List Entry) : Date × List Entry :=
  (d, serializeReminders s)

/-- Deserialization of a persisted pair (line 327 together with
`Deserialize for Reminders`). -/
def loadPair (p : Date × List Entry) : Date × List Entry :=
  (p.1, collectReminders p.2)

/-- The startup load (lines 323–329).  `none` models an absent file
(`try_exists` returned false); `some none` models content that failed
to deserialize (`.ok()` turned the error into `None`); both fall back
to `unwrap_or_default()`. -/
def loadTimer (c : Option (Option (Date × List Entry))) : Date × List Entry :=
  match c with
  | some (some p) => loadPair p
  | _ => (Date.defaultDate, [])

/-- `MyApp::dump` (lines 306–313) with its two fallible externals made
explicit: `File::create` and `serde_json::to_writer` each end in
`.unwrap()`, so a failure of either is a panic, modelled as `none`
(the process terminates); `some` is the successfully written pair. -/
def dumpResult (createOk writeOk : Bool) (d : Date) (s : List Entry) :
    Option (Date × List Entry) :=
  if createOk then
    if writeOk then some (dumpPair d s) else none
  else none

/-! ### The trigger scan and the insert path -/

/-- One iteration of the trigger loop body (lines 254–259): an
untriggered entry whose target date has been reached plays the
notification (emits its label) and latches the flag. -/
def scanStep (cur : Date) (e : Entry) : Entry × Option String :=
  if !e.2.2 && Date.le e.1.date cur then
    ((e.1, e.2.1, true), some e.2.1)
  else (e, none)

/-- The whole per-refresh scan (the loop of lines 254–259): every entry
is visited once; the second component collects the emitted labels in
store order. -/
def scan_and_trigger (cur : Date) : List Entry → List Entry × List String
  | [] => ([], [])
  | e :: t =>
    let r := scanStep cur e
    let rest := scan_and_trigger cur t
    (r.1 :: rest.1,
      match r.2 with
      | some l => l :: rest.2
      | none => rest.2)

/-- Rust `f64 as u16` (line 246): truncate toward zero, saturating at
the type bounds.  Finite `f64` values embed into `ℚ`, on which the
comparisons and the truncation are exact. -/
def f64AsU16 (q : ℚ) : Nat :=
  if q < 0 then 0 else min (Int.toNat ⌊q⌋) 65535

/-- The Add-button handler (lines 243–251): accept exactly when
`1 ≤ interval ≤ 300·360`; on accept, insert the target date computed
from the current date cell, stamped with the wall-clock offset `now`,
with the flag initially false.  Rejection leaves the store untouched. -/
def insertReminder (store : List Entry) (cur : Date) (now : Nat)
    (label : String) (interval : ℚ) : List Entry :=
  if 1 ≤ interval ∧ interval ≤ 300 * 360 then
    btreeInsert ⟨now, cur.with_days_added (f64AsU16 interval)⟩ (label, false) store
  else store

/-- Advancing a Calendar Value by `n` days, written from the spec's
words (§4.1: day arithmetic mod 30 with carry to months, then month
arithmetic mod 12 with carry to years), with no machine-width
truncation anywhere.  Used to compare the code's arithmetic against
the spec's. -/
def advanceDays (d : Date) (n : Nat) : Date :=
  let t := d.day - 1 + n
  let m := d.month - 1 + t / 30
  ⟨d.year + m / 12, m % 12 + 1, t % 30 + 1⟩

/-- The strict key order of the reminder map, on entries. -/
def entryLT (a b : Entry) : Prop := a.1.cmp b.1 = .lt

instance : DecidableRel entryLT := fun a b => by
  unfold entryLT; infer_instance

/-! ### Helper lemmas -/

theorem natCmp_lt_iff {x y : Nat} : natCmp x y = .lt ↔ x < y := by
  unfold natCmp
  split
  · simp [*]
  · split <;> simp <;> omega

theorem natCmp_eq_iff {x y : Nat} : natCmp x y = .eq ↔ x = y := by
  unfold natCmp
  split
  · simp; omega
  · split <;> simp <;> omega

theorem natCmp_gt_iff {x y : Nat} : natCmp x y = .gt ↔ y < x := by
  unfold natCmp
  split
  · simp; omega
  · split <;> simp <;> omega

theorem date_le_iff (a b : Date) :
    Date.le a b = true ↔ a.days_since_jesus ≤ b.days_since_jesus := by
  unfold Date.le
  rcases h : Date.cmp a b with _ | _ | _ <;> unfold Date.cmp at h <;> simp
  · exact (natCmp_lt_iff.mp h).le
  · exact (natCmp_eq_iff.mp h).le
  · exact natCmp_gt_iff.mp h

/-! ### Claim theorems -/

/-- C5: the derived order on Calendar Values is exactly the
linearization order `year*360 + month*30 + day`, and the sample chain
is strictly increasing. -/
theorem date_order_iff_linearization :
    (∀ a b : Date, Date.le a b = true ↔ linearization a ≤ linearization b) ∧
    Date.lt ⟨2200, 1, 1⟩ ⟨2200, 1, 2⟩ = true ∧
    Date.lt ⟨2200, 1, 2⟩ ⟨2200, 2, 1⟩ = true ∧
    Date.lt ⟨2200, 2, 1⟩ ⟨2201, 1, 1⟩ = true := by
  refine ⟨fun a b => ?_, by decide, by decide, by decide⟩
  rw [date_le_iff]
  unfold Date.days_since_jesus linearization
  exact Iff.rfl

/-- C8: an absent persistence file (`none`) and undeserializable content
(`some none`) both load as the sentinel date paired with an empty
store, and the sentinel is year 2200, month 1, day 1. -/
theorem load_fallback_default :
    loadTimer none = (Date.defaultDate, []) ∧
    loadTimer (some none) = (Date.defaultDate, []) ∧
    Date.defaultDate = ⟨2200, 1, 1⟩ :=
  ⟨rfl, rfl, rfl⟩

/-- C9 counterexample: a failing file creation (and likewise a failing
serialization) makes `dump` panic — the `none` outcome, i.e. process
termination — contradicting the claim that a save failure is not fatal
to the running process. -/
theorem dump_failure_fatal_cex :
    dumpResult false true ⟨2200, 1, 1⟩ [] = none ∧
    dumpResult true false ⟨2200, 1, 1⟩ [] = none :=
  ⟨rfl, rfl⟩

/-- C9 amended: a save failure is surfaced — the outcome is the panic
`none`, never a silent success — but the panic terminates the process
(it is fatal); only when both externals succeed is the exact pair
written. -/
theorem dump_failure_surfaced (c w : Bool) (d : Date) (s : List Entry) :
    (dumpResult c w d s = none ↔ ¬(c = true ∧ w = true)) ∧
    (c = true → w = true → dumpResult c w d s = some (d, s)) := by
  cases c <;> cases w <;>
    simp [dumpResult, dumpPair, serializeReminders]

/-- C9 witness: the amended theorem evaluated on the all-success path. -/
theorem dump_failure_surfaced_witness :
    dumpResult true true Date.defaultDate [] = some (Date.defaultDate, []) :=
  (dump_failure_surfaced true true Date.defaultDate []).2 rfl rfl

/-- C2 counterexample: the input 2250.00.15 matches the pattern, its
groups parse, and the parser ACCEPTS it with month 0, although the
claim requires the month to lie in [1,12] for acceptance. -/
theorem parse_month_zero_accepted :
    recognize_date "2250.00.15".toList = some ⟨2250, 0, 15⟩ ∧
    ¬(1 ≤ (0 : Nat) ∧ (0 : Nat) ≤ 12) :=
  ⟨rfl, by decide⟩

/-- C7 counterexample: the all-digit input 2250906915 is matched (and
even parsed to a date) although its two separator positions hold the
digit 9, not a non-digit character; so non-digit separators are not
required and the claim's only-if direction fails. -/
theorem regex_digit_separator_matches :
    recognize_date "2250906915".toList = some ⟨2250, 6, 15⟩ ∧
    dateMatch "2250906915".toList =
      some ("2250".toList, "06".toList, "15".toList) ∧
    ('9' : Char).isDigit = true :=
  ⟨rfl, rfl, rfl⟩

/-- C4 counterexample: 65535 lies in the claimed range [1,108000] and
{2200,1,2} is valid, yet adding 65535 days wraps the intermediate
`u16` sum and yields {2200,1,1}, one day BEFORE the start date, so the
linearization does not grow by 65535. -/
theorem with_days_added_overflow_cex :
    (1 : Nat) ≤ 65535 ∧ (65535 : Nat) ≤ 108000 ∧
    Date.valid ⟨2200, 1, 2⟩ ∧
    Date.with_days_added ⟨2200, 1, 2⟩ 65535 = ⟨2200, 1, 1⟩ ∧
    linearization (Date.with_days_added ⟨2200, 1, 2⟩ 65535) ≠
      linearization ⟨2200, 1, 2⟩ + 65535 := by
  refine ⟨by decide, by decide, by decide, by decide, by decide⟩

/-- C3 counterexample: days_ahead = 108000 lies inside the accepted
range, yet the inserted entry's date is the current date advanced by
only 65535 days (the saturated u16 cast), reaching {2382,1,16} — not
by 108000 days, which under the fixed radix reaches {2500,1,1}. -/
theorem insert_large_interval_truncated :
    (1 : ℚ) ≤ 108000 ∧ (108000 : ℚ) ≤ 108000 ∧
    insertReminder [] ⟨2200, 1, 1⟩ 42 "r" 108000 =
      [(⟨42, ⟨2382, 1, 16⟩⟩, "r", false)] ∧
    advanceDays ⟨2200, 1, 1⟩ 108000 = ⟨2500, 1, 1⟩ ∧
    (⟨2382, 1, 16⟩ : Date) ≠ ⟨2500, 1, 1⟩ := by
  refine ⟨by norm_num, by norm_num, ?_, by decide, by decide⟩
  unfold insertReminder f64AsU16
  rw [if_pos (by norm_num : (1:ℚ) ≤ 108000 ∧ (108000:ℚ) ≤ 300 * 360)]
  rw [if_neg (by norm_num : ¬ (108000:ℚ) < 0)]
  norm_num
  decide

/-- C10: on the accepted insert path the real-valued interval is turned
into the day count by truncation toward zero saturated at 65535, so
the count used is min(floor(interval), 65535); any interval above
65535 uses exactly 65535 days. -/
theorem interval_cast_saturates (q : ℚ) (cur : Date) (now : Nat)
    (label : String) (h1 : 1 ≤ q) (h2 : q ≤ 108000) :
    f64AsU16 q = min (Int.toNat ⌊q⌋) 65535 ∧
    (65535 < q → f64AsU16 q = 65535) ∧
    insertReminder [] cur now label q =
      [(⟨now, cur.with_days_added (min (Int.toNat ⌊q⌋) 65535)⟩, label, false)] := by
  have hq : ¬ q < 0 := by linarith
  refine ⟨?_, ?_, ?_⟩
  · unfold f64AsU16; rw [if_neg hq]
  · intro h3
    unfold f64AsU16; rw [if_neg hq]
    have hfl : (65535 : ℤ) ≤ ⌊q⌋ := Int.le_floor.mpr (by exact_mod_cast h3.le)
    omega
  · have h2b : q ≤ 300 * 360 := by
      have he : (300 : ℚ) * 360 = 108000 := by norm_num
      rw [he]; exact h2
    unfold insertReminder
    rw [if_pos ⟨h1, h2b⟩]
    unfold f64AsU16
    rw [if_neg hq]
    rfl

/-- C10 witness: interval 70000 is accepted and casts to 65535. -/
theorem interval_cast_saturates_witness :
    (1 : ℚ) ≤ 70000 ∧ (70000 : ℚ) ≤ 108000 ∧ f64AsU16 70000 = 65535 :=
  ⟨by norm_num, by norm_num,
    (interval_cast_saturates 70000 Date.defaultDate 0 "r" (by norm_num)
      (by norm_num)).2.1 (by norm_num)⟩

/-- C1: an untriggered entry whose target is reached emits its label
and latches the flag; rescanning it at the same or a later date emits
nothing and keeps the flag; any already-triggered entry is never
re-emitted; and the full scan visits every entry exactly once (its
updated store is the entrywise update, its output the entrywise
emissions). -/
theorem scan_one_shot_trigger (e : Entry) (cur cur2 : Date)
    (hf : e.2.2 = false) (hr : Date.le e.1.date cur = true)
    (hcc : Date.le cur cur2 = true) :
    scanStep cur e = ((e.1, e.2.1, true), some e.2.1) ∧
    scanStep cur2 (scanStep cur e).1 = ((e.1, e.2.1, true), none) ∧
    (∀ f2 : Entry, f2.2.2 = true → scanStep cur2 f2 = (f2, none)) ∧
    (∀ s : List Entry,
      (scan_and_trigger cur s).1 = s.map (fun x => (scanStep cur x).1) ∧
      (scan_and_trigger cur s).2 = s.filterMap (fun x => (scanStep cur x).2)) := by
  have h1 : scanStep cur e = ((e.1, e.2.1, true), some e.2.1) := by
    unfold scanStep
    rw [hf, hr]
    simp
  refine ⟨h1, ?_, ?_, ?_⟩
  · rw [h1]
    unfold scanStep
    simp
  · intro f2 hf2
    unfold scanStep
    rw [hf2]
    simp
  · intro s
    induction s with
    | nil => exact ⟨rfl, rfl⟩
    | cons a t ih =>
      unfold scan_and_trigger
      rcases h : (scanStep cur a).2 with _ | l <;>
        simp [h, ih.1, ih.2, List.filterMap_cons]

/-- C1 witness: a concrete untriggered entry reached at {2200,1,5}
emits its label once. -/
theorem scan_one_shot_trigger_witness :
    (((⟨7, ⟨2200, 1, 5⟩⟩, "r", false) : Entry).2.2 = false) ∧
    (Date.le (⟨2200, 1, 5⟩ : Date) ⟨2200, 1, 5⟩ = true) ∧
    scanStep ⟨2200, 1, 5⟩ ((⟨7, ⟨2200, 1, 5⟩⟩, "r", false) : Entry) =
      ((⟨7, ⟨2200, 1, 5⟩⟩, "r", true), some "r") :=
  ⟨rfl, by decide,
    (scan_one_shot_trigger (⟨7, ⟨2200, 1, 5⟩⟩, "r", false) ⟨2200, 1, 5⟩
      ⟨2200, 1, 6⟩ rfl (by decide) (by decide)).1⟩

/-- C4 amended: the day addition is correct — the linearization grows
by exactly n — whenever the intermediate u16 sum day + n does not
overflow (day + n ≤ 65535); the claimed range [1,108000] exceeds what
the u16 argument admits, and at the top of the representable range the
sum wraps (see the counterexample).  The two sample additions hold. -/
theorem with_days_added_linearization (d : Date) (n : Nat) (hv : d.valid)
    (h1 : 1 ≤ n) (h2 : d.day + n ≤ 65535) :
    linearization (d.with_days_added n) = linearization d + n ∧
    Date.with_days_added ⟨2200, 1, 1⟩ 30 = ⟨2200, 2, 1⟩ ∧
    Date.with_days_added ⟨2200, 1, 1⟩ 360 = ⟨2201, 1, 1⟩ := by
  refine ⟨?_, by decide, by decide⟩
  obtain ⟨hv1, hv2, hv3, hv4, hv5, hv6⟩ := hv
  unfold Date.with_days_added linearization u16Mod
  dsimp only
  omega

/-- C4 witness: the amended theorem evaluated at {2200,1,1} plus 30. -/
theorem with_days_added_linearization_witness :
    Date.valid ⟨2200, 1, 1⟩ ∧ (1 : Nat) ≤ 30 ∧ (1 : Nat) + 30 ≤ 65535 ∧
    linearization (Date.with_days_added ⟨2200, 1, 1⟩ 30) =
      linearization ⟨2200, 1, 1⟩ + 30 :=
  ⟨by decide, by decide, by decide,
    (with_days_added_linearization ⟨2200, 1, 1⟩ 30 (by decide) (by decide)
      (by decide)).1⟩

/-- C2 amended: for a matched input whose groups parse, the parser
accepts exactly under the code's bound check
y < 3000, y > 2199, m < 13, d < 31 — the month has no lower bound
(month 0 is accepted), and neither does the day. -/
theorem parse_bounds_amended (s g1 g2 g3 : List Char) (y m d : Nat)
    (hm : dateMatch s = some (g1, g2, g3))
    (hy : parseU16 g1 = some y) (hmo : parseU8 g2 = some m)
    (hd : parseU8 g3 = some d) :
    recognize_date s =
      if y < 3000 ∧ y > 2199 ∧ m < 13 ∧ d < 31 then some ⟨y, m, d⟩
      else none := by
  unfold recognize_date parse_dt
  rw [hm]
  simp [hy, hmo, hd]

/-- C2 witness: the amended theorem evaluated on 2250.06.15, which is
accepted as {2250,6,15}. -/
theorem parse_bounds_amended_witness :
    dateMatch "2250.06.15".toList =
      some ("2250".toList, "06".toList, "15".toList) ∧
    parseU16 "2250".toList = some 2250 ∧
    recognize_date "2250.06.15".toList =
      (if (2250 : Nat) < 3000 ∧ (2250 : Nat) > 2199 ∧ (6 : Nat) < 13 ∧
          (15 : Nat) < 31 then some ⟨2250, 6, 15⟩ else none) :=
  ⟨rfl, rfl,
    parse_bounds_amended "2250.06.15".toList "2250".toList "06".toList
      "15".toList 2250 6 15 rfl rfl rfl rfl⟩

/-- C7 amended: over ASCII text (the alphabet reachable through the
OCR whitelist), the matcher succeeds exactly on strings of the shape
4 digits, ONE ARBITRARY NON-NEWLINE character, 2 digits, one arbitrary
non-newline character, 2 digits: the separator positions are the
regex dot, which also accepts digits, not only non-digit characters. -/
theorem date_match_shape (s : List Char) (hascii : ∀ c ∈ s, c.toNat < 128) :
    (dateMatch s).isSome = true ↔
      ∃ c1 c2 c3 c4 x c5 c6 y c7 c8 : Char,
        s = [c1, c2, c3, c4, x, c5, c6, y, c7, c8] ∧
        (c1.isDigit = true ∧ c2.isDigit = true ∧ c3.isDigit = true ∧
          c4.isDigit = true ∧ c5.isDigit = true ∧ c6.isDigit = true ∧
          c7.isDigit = true ∧ c8.isDigit = true) ∧
        x ≠ '\n' ∧ y ≠ '\n' := by
  constructor
  · intro h
    rcases s with _ | ⟨a1, s⟩
    · simp [dateMatch] at h
    rcases s with _ | ⟨a2, s⟩
    · simp [dateMatch] at h
    rcases s with _ | ⟨a3, s⟩
    · simp [dateMatch] at h
    rcases s with _ | ⟨a4, s⟩
    · simp [dateMatch] at h
    rcases s with _ | ⟨a5, s⟩
    · simp [dateMatch] at h
    rcases s with _ | ⟨a6, s⟩
    · simp [dateMatch] at h
    rcases s with _ | ⟨a7, s⟩
    · simp [dateMatch] at h
    rcases s with _ | ⟨a8, s⟩
    · simp [dateMatch] at h
    rcases s with _ | ⟨a9, s⟩
    · simp [dateMatch] at h
    rcases s with _ | ⟨a10, s⟩
    · simp [dateMatch] at h
    rcases s with _ | ⟨a11, s⟩
    · have he : dateMatch [a1, a2, a3, a4, a5, a6, a7, a8, a9, a10] =
          if ([a1, a2, a3, a4, a6, a7, a9, a10].all Char.isDigit = true) ∧
              a5 ≠ '\n' ∧ a8 ≠ '\n' then
            some ([a1, a2, a3, a4], [a6, a7], [a9, a10])
          else none := rfl
      rw [he] at h
      split at h
      · rename_i hc
        obtain ⟨hdig, hx, hy⟩ := hc
        simp only [List.all_cons, List.all_nil, Bool.and_eq_true] at hdig
        exact ⟨a1, a2, a3, a4, a5, a6, a7, a8, a9, a10, rfl,
          ⟨hdig.1, hdig.2.1, hdig.2.2.1, hdig.2.2.2.1, hdig.2.2.2.2.1,
            hdig.2.2.2.2.2.1, hdig.2.2.2.2.2.2.1, hdig.2.2.2.2.2.2.2.1⟩,
          hx, hy⟩
      · simp at h
    · simp [dateMatch] at h
  · rintro ⟨c1, c2, c3, c4, x, c5, c6, y, c7, c8, rfl, hdig, hx, hy⟩
    obtain ⟨h1, h2, h3, h4, h5, h6, h7, h8⟩ := hdig
    have he : dateMatch [c1, c2, c3, c4, x, c5, c6, y, c7, c8] =
        if ([c1, c2, c3, c4, c5, c6, c7, c8].all Char.isDigit = true) ∧
            x ≠ '\n' ∧ y ≠ '\n' then
          some ([c1, c2, c3, c4], [c5, c6], [c7, c8])
        else none := rfl
    rw [he, if_pos ⟨by simp [h1, h2, h3, h4, h5, h6, h7, h8], hx, hy⟩]
    rfl

/-- C7 witness: the amended shape theorem evaluated on 2250.06.15. -/
theorem date_match_shape_witness :
    (∀ c ∈ "2250.06.15".toList, c.toNat < 128) ∧
    (dateMatch "2250.06.15".toList).isSome = true :=
  ⟨by decide,
    (date_match_shape "2250.06.15".toList (by decide)).mpr
      ⟨'2', '2', '5', '0', '.', '0', '6', '.', '1', '5', rfl,
        by decide, by decide, by decide⟩⟩

theorem btreeInsert_length_of_fresh (k : StampedDate) (v : String × Bool)
    (m : List Entry) (hfresh : ∀ e ∈ m, k.cmp e.1 ≠ .eq) :
    (btreeInsert k v m).length = m.length + 1 := by
  induction m with
  | nil => rfl
  | cons e t ih =>
    unfold btreeInsert
    rcases h : k.cmp e.1 with _ | _ | _
    · simp
    · exact absurd h (hfresh e (List.mem_cons_self e t))
    · simpa using ih fun x hx => hfresh x (List.mem_cons_of_mem e hx)

/-- C3 amended: the insert path is a no-op outside 1 ≤ days_ahead ≤
108000 (0 and 108001 included); an accepted insert adds, under a fresh
stamp, one entry with the flag false whose key date is the current
date advanced by the SATURATED TRUNCATION f64AsU16(days_ahead) — equal
to days_ahead itself only up to 65535 — via the u16 day arithmetic. -/
theorem insert_reminder_amended (store : List Entry) (cur : Date)
    (now : Nat) (label : String) (q : ℚ)
    (hfresh : ∀ e ∈ store,
      StampedDate.cmp ⟨now, cur.with_days_added (f64AsU16 q)⟩ e.1 ≠ .eq) :
    (¬(1 ≤ q ∧ q ≤ 108000) → insertReminder store cur now label q = store) ∧
    ((1 ≤ q ∧ q ≤ 108000) →
      insertReminder store cur now label q =
        btreeInsert ⟨now, cur.with_days_added (f64AsU16 q)⟩ (label, false)
          store) ∧
    ((1 ≤ q ∧ q ≤ 108000) →
      (insertReminder store cur now label q).length = store.length + 1) ∧
    insertReminder store cur now label 0 = store ∧
    insertReminder store cur now label 108001 = store := by
  have he : (300 : ℚ) * 360 = 108000 := by norm_num
  have hacc : ∀ hq : 1 ≤ q ∧ q ≤ 108000,
      insertReminder store cur now label q =
        btreeInsert ⟨now, cur.with_days_added (f64AsU16 q)⟩ (label, false)
          store := by
    intro hq
    unfold insertReminder
    rw [if_pos ⟨hq.1, by rw [he]; exact hq.2⟩]
  refine ⟨?_, hacc, ?_, ?_, ?_⟩
  · intro hno
    unfold insertReminder
    exact if_neg fun hc => hno ⟨hc.1, he ▸ hc.2⟩
  · intro hq
    rw [hacc hq]
    exact btreeInsert_length_of_fresh _ _ store hfresh
  · unfold insertReminder
    exact if_neg (by norm_num)
  · unfold insertReminder
    exact if_neg (by norm_num)

/-- C3 witness: inserting with days_ahead = 1 into the empty store
succeeds and grows the store size from 0 to 1. -/
theorem insert_reminder_amended_witness :
    ((1 : ℚ) ≤ 1 ∧ (1 : ℚ) ≤ 108000) ∧
    (insertReminder [] Date.defaultDate 5 "r" 1).length = 0 + 1 :=
  ⟨⟨le_refl 1, by norm_num⟩,
    (insert_reminder_amended [] Date.defaultDate 5 "r" 1 (by simp)).2.2.1
      ⟨le_refl 1, by norm_num⟩⟩

theorem scmp_lt_iff (a b : StampedDate) :
    a.cmp b = .lt ↔ (a.date.days_since_jesus < b.date.days_since_jesus ∨
      (a.date.days_since_jesus = b.date.days_since_jesus ∧ a.time < b.time)) := by
  unfold StampedDate.cmp orderingThen Date.cmp
  rcases h : natCmp a.date.days_since_jesus b.date.days_since_jesus with _ | _ | _
  · have hd := natCmp_lt_iff.mp h
    simp [h, hd]
  · have hd := natCmp_eq_iff.mp h
    simp [h, hd, natCmp_lt_iff]
  · have hd := natCmp_gt_iff.mp h
    simp [h]
    omega

theorem scmp_eq_iff (a b : StampedDate) :
    a.cmp b = .eq ↔ (a.date.days_since_jesus = b.date.days_since_jesus ∧
      a.time = b.time) := by
  unfold StampedDate.cmp orderingThen Date.cmp
  rcases h : natCmp a.date.days_since_jesus b.date.days_since_jesus with _ | _ | _
  · have hd := natCmp_lt_iff.mp h
    simp [h]
    omega
  · have hd := natCmp_eq_iff.mp h
    simp [h, hd, natCmp_eq_iff]
  · have hd := natCmp_gt_iff.mp h
    simp [h]
    omega

theorem scmp_gt_iff (a b : StampedDate) :
    a.cmp b = .gt ↔ (b.date.days_since_jesus < a.date.days_since_jesus ∨
      (b.date.days_since_jesus = a.date.days_since_jesus ∧ b.time < a.time)) := by
  unfold StampedDate.cmp orderingThen Date.cmp
  rcases h : natCmp a.date.days_since_jesus b.date.days_since_jesus with _ | _ | _
  · have hd := natCmp_lt_iff.mp h
    simp [h]
    omega
  · have hd := natCmp_eq_iff.mp h
    simp [h, hd, natCmp_gt_iff]
  · have hd := natCmp_gt_iff.mp h
    simp [h, hd]

theorem scmp_eq_symm (a b : StampedDate) : a.cmp b = .eq ↔ b.cmp a = .eq := by
  rw [scmp_eq_iff, scmp_eq_iff]
  omega

theorem scmp_gt_flip (a b : StampedDate) : a.cmp b = .gt ↔ b.cmp a = .lt := by
  rw [scmp_gt_iff, scmp_lt_iff]

theorem entryLT_trans_lemma (a b c : Entry) (h1 : entryLT a b)
    (h2 : entryLT b c) : entryLT a c := by
  unfold entryLT at h1 h2 ⊢
  rw [scmp_lt_iff] at h1 h2 ⊢
  omega

theorem entryLT_not_both (a b : Entry) (h1 : entryLT a b) (h2 : entryLT b a) :
    False := by
  unfold entryLT at h1 h2
  rw [scmp_lt_iff] at h1 h2
  omega

instance : IsAntisymm Entry entryLT :=
  ⟨fun a b h1 h2 => (entryLT_not_both a b h1 h2).elim⟩

theorem btreeInsert_perm_of_fresh (k : StampedDate) (v : String × Bool)
    (m : List Entry) (hfresh : ∀ e ∈ m, k.cmp e.1 ≠ .eq) :
    (btreeInsert k v m).Perm ((k, v) :: m) := by
  induction m with
  | nil => exact List.Perm.refl _
  | cons e t ih =>
    unfold btreeInsert
    rcases h : k.cmp e.1 with _ | _ | _
    · exact List.Perm.refl _
    · exact absurd h (hfresh e (List.mem_cons_self e t))
    · exact ((ih fun x hx =>
        hfresh x (List.mem_cons_of_mem e hx)).cons e).trans
        (List.Perm.swap (k, v) e t)

theorem mem_btreeInsert_key (k : StampedDate) (v : String × Bool)
    (m : List Entry) :
    ∀ x ∈ btreeInsert k v m, x.1 = k ∨ ∃ y ∈ m, x.1 = y.1 := by
  induction m with
  | nil =>
    intro x hx
    rcases List.mem_singleton.mp hx with rfl
    exact Or.inl rfl
  | cons e t ih =>
    intro x hx
    unfold btreeInsert at hx
    rcases h : k.cmp e.1 with _ | _ | _ <;> rw [h] at hx
    · rcases List.mem_cons.mp hx with rfl | hx2
      · exact Or.inl rfl
      · rcases List.mem_cons.mp hx2 with rfl | hx3
        · exact Or.inr ⟨x, List.mem_cons_self x t, rfl⟩
        · exact Or.inr ⟨x, List.mem_cons_of_mem e hx3, rfl⟩
    · rcases List.mem_cons.mp hx with rfl | hx2
      · exact Or.inr ⟨e, List.mem_cons_self e t, rfl⟩
      · exact Or.inr ⟨x, List.mem_cons_of_mem e hx2, rfl⟩
    · rcases List.mem_cons.mp hx with rfl | hx2
      · exact Or.inr ⟨x, List.mem_cons_self x t, rfl⟩
      · rcases ih x hx2 with h1 | ⟨y, hy, h2⟩
        · exact Or.inl h1
        · exact Or.inr ⟨y, List.mem_cons_of_mem e hy, h2⟩

theorem btreeInsert_sorted (k : StampedDate) (v : String × Bool)
    (m : List Entry) (hs : m.Sorted entryLT) :
    (btreeInsert k v m).Sorted entryLT := by
  induction m with
  | nil => simp [btreeInsert]
  | cons e t ih =>
    obtain ⟨hhead, htail⟩ := List.pairwise_cons.mp hs
    unfold btreeInsert
    rcases h : k.cmp e.1 with _ | _ | _
    · refine List.pairwise_cons.mpr ⟨?_, hs⟩
      intro x hx
      rcases List.mem_cons.mp hx with rfl | hx2
      · exact h
      · exact entryLT_trans_lemma (k, v) e x h (hhead x hx2)
    · exact List.pairwise_cons.mpr ⟨fun x hx => hhead x hx, htail⟩
    · refine List.pairwise_cons.mpr ⟨?_, ih htail⟩
      intro x hx
      rcases mem_btreeInsert_key k v t x hx with h1 | ⟨y, hy, h2⟩
      · unfold entryLT
        rw [h1]
        exact (scmp_gt_flip k e.1).mp h
      · unfold entryLT
        rw [h2]
        exact hhead y hy

theorem keyNe_symmetric :
    Symmetric (fun a b : Entry => a.1.cmp b.1 ≠ .eq) := by
  intro a b h heq
  exact h ((scmp_eq_symm b.1 a.1).mp heq)

theorem collect_go (l : List Entry) :
    ∀ acc : List Entry, acc.Sorted entryLT →
      (acc ++ l).Pairwise (fun a b : Entry => a.1.cmp b.1 ≠ .eq) →
      (l.foldl (fun m e => btreeInsert e.1 e.2 m) acc).Sorted entryLT ∧
      (l.foldl (fun m e => btreeInsert e.1 e.2 m) acc).Perm (acc ++ l) := by
  induction l with
  | nil =>
    intro acc hsacc hdist
    simpa using hsacc
  | cons e t ih =>
    intro acc hsacc hdist
    have hfresh : ∀ x ∈ acc, e.1.cmp x.1 ≠ .eq := by
      intro x hx
      have h3 := (List.pairwise_append.mp hdist).2.2 x hx e
        (List.mem_cons_self e t)
      exact fun heq => h3 ((scmp_eq_symm e.1 x.1).mp heq)
    have hperm : (btreeInsert e.1 e.2 acc).Perm (e :: acc) :=
      btreeInsert_perm_of_fresh e.1 e.2 acc hfresh
    have hsacc2 : (btreeInsert e.1 e.2 acc).Sorted entryLT :=
      btreeInsert_sorted e.1 e.2 acc hsacc
    have hmid : (acc ++ e :: t).Perm (e :: (acc ++ t)) := List.perm_middle
    have hdist2 : (btreeInsert e.1 e.2 acc ++ t).Pairwise
        (fun a b : Entry => a.1.cmp b.1 ≠ .eq) :=
      List.Pairwise.perm (hdist.perm hmid fun hab => keyNe_symmetric hab)
        ((hperm.append_right t).symm) fun hab => keyNe_symmetric hab
    obtain ⟨hres1, hres2⟩ := ih (btreeInsert e.1 e.2 acc) hsacc2 hdist2
    refine ⟨hres1, ?_⟩
    have h4 : ((btreeInsert e.1 e.2 acc) ++ t).Perm (acc ++ e :: t) :=
      (hperm.append_right t).trans hmid.symm
    exact hres2.trans h4

/-- C6: saving then loading restores the date exactly and the store
exactly, and deserialization is order independent — collecting any
permutation of the serialized entry vector rebuilds the same store. -/
theorem persistence_round_trip (d : Date) (s : List Entry)
    (hs : s.Sorted entryLT) :
    loadPair (dumpPair d s) = (d, s) ∧
    (∀ l : List Entry, l.Perm (serializeReminders s) →
      collectReminders l = s) := by
  have hdistS : s.Pairwise (fun a b : Entry => a.1.cmp b.1 ≠ .eq) :=
    hs.imp fun h => by
      unfold entryLT at h
      rw [h]
      simp
  have hmain : ∀ l : List Entry, l.Perm s → collectReminders l = s := by
    intro l hp
    have hdistl : l.Pairwise (fun a b : Entry => a.1.cmp b.1 ≠ .eq) :=
      hdistS.perm hp.symm fun hab => keyNe_symmetric hab
    obtain ⟨h1, h2⟩ := collect_go l [] (by simp) (by simpa using hdistl)
    exact List.eq_of_perm_of_sorted (h2.trans ((by simpa using hp))) h1 hs
  refine ⟨?_, fun l hp => hmain l hp⟩
  show (d, collectReminders s) = (d, s)
  rw [hmain s (List.Perm.refl s)]

/-- C6 witness: a concrete two-entry sorted store round-trips. -/
theorem persistence_round_trip_witness :
    ([(⟨1, ⟨2200, 1, 2⟩⟩, "a", false), (⟨2, ⟨2200, 1, 3⟩⟩, "b", true)] :
        List Entry).Sorted entryLT ∧
    loadPair (dumpPair ⟨2250, 3, 4⟩
        [(⟨1, ⟨2200, 1, 2⟩⟩, "a", false), (⟨2, ⟨2200, 1, 3⟩⟩, "b", true)]) =
      (⟨2250, 3, 4⟩,
        [(⟨1, ⟨2200, 1, 2⟩⟩, "a", false), (⟨2, ⟨2200, 1, 3⟩⟩, "b", true)]) :=
  ⟨by decide, (persistence_round_trip ⟨2250, 3, 4⟩
      [(⟨1, ⟨2200, 1, 2⟩⟩, "a", false), (⟨2, ⟨2200, 1, 3⟩⟩, "b", true)]
      (by decide)).1⟩
